import Mathlib

/-!
Verification development for a small neural-network execution engine
(`layers.py` and `network.py`): a `Network` wires named layers together
through shared named arrays ("blobs"), runs forward passes in registration
order and backward passes in reverse registration order, and aggregates
per-layer parameter/gradient dictionaries by registered layer name.

The Python code is shallowly embedded here:

* numpy arrays become `NDArr` (row-major flat integer data plus a shape);
* Python dicts become insertion-ordered association lists with
  replace-on-insert (`insertA`), matching dict iteration order;
* Python exceptions become the `PyErr` error type inside `Except`;
* each stateful method becomes a function from old state to new state.

Numeric element values are modelled as integers (exact arithmetic); all
operations exercised by the claims (copying, zero-fill, elementwise
maximum/multiplication, dot products, concatenation) are ring operations,
so nothing here depends on floating-point rounding.
-/

/-- Python exception classes that the embedded code can raise. -/
inductive PyErr where
  | keyError
  | valueError
  | nameError
  | attributeError
  | indexError
  | assertionError
  | configurationError
  deriving DecidableEq, Repr

/-- Model of a numpy ndarray: a shape and the row-major flat element data. -/
structure NDArr where
  shape : List Nat
  data : List Int
  deriving DecidableEq, Repr

/-- Well-formedness of an array: the flat data has exactly as many elements
as the shape prescribes. -/
def NDArr.WF (a : NDArr) : Prop := a.data.length = a.shape.prod

/-- Embedding of `np.empty((0,))`: a one-dimensional array with no elements. -/
def npEmpty0 : NDArr := ⟨[0], []⟩

/-- Embedding of the numpy expression `0*x`: an array of the same shape with
every element multiplied by zero. -/
def zeroTimes (x : NDArr) : NDArr := ⟨x.shape, x.data.map (fun v => 0 * v)⟩

/-- Embedding of `x.resize(sh, refcheck=False)`: in-place resize, keeping the
leading elements in row-major order and zero-filling any new trailing ones. -/
def resizeArr (x : NDArr) (sh : List Nat) : NDArr :=
  ⟨sh, x.data.take sh.prod ++ List.replicate (sh.prod - x.data.length) 0⟩

/-- Embedding of the in-place numpy assignment `x[...] = y`: with equal shapes
the contents of `y` are copied into `x`; a single element is broadcast;
any other shape combination raises a ValueError.  (General numpy broadcasting
beyond the scalar case is not exercised by this code base.) -/
def writeArr (x y : NDArr) : Except PyErr NDArr :=
  if y.shape = x.shape then .ok ⟨x.shape, y.data⟩
  else if y.data.length = 1 then .ok ⟨x.shape, List.replicate x.data.length y.data.headI⟩
  else .error .valueError

/-- Embedding of elementwise `a * b` on same-shaped arrays. -/
def npMul (a b : NDArr) : Except PyErr NDArr :=
  if a.shape = b.shape then .ok ⟨a.shape, (a.data.zip b.data).map (fun p => p.1 * p.2)⟩
  else .error .valueError

/-- Embedding of `np.maximum(b, 0)`. -/
def npMaximum0 (b : NDArr) : NDArr := ⟨b.shape, b.data.map (fun v => max v 0)⟩

/-- Embedding of the boolean mask `t > 0`, as numpy uses it in arithmetic:
ones where the element is positive, zeros elsewhere. -/
def npGtZero (t : NDArr) : NDArr := ⟨t.shape, t.data.map (fun v => if 0 < v then 1 else 0)⟩

/-- Lookup in an insertion-ordered association list (a Python dict access). -/
def lookupA {α : Type} : List (String × α) → String → Option α
  | [], _ => none
  | (k, v) :: t, n => if k = n then some v else lookupA t n

/-- Membership test in an association list (Python `in` on a dict). -/
def containsA {α : Type} (l : List (String × α)) (n : String) : Bool :=
  (lookupA l n).isSome

/-- Store into an insertion-ordered association list (a Python dict
assignment `d[n] = v`): an existing key keeps its position and gets the new
value, a new key is appended at the end. -/
def insertA {α : Type} : List (String × α) → String → α → List (String × α)
  | [], n, v => [(n, v)]
  | (k, w) :: t, n, v => if k = n then (n, v) :: t else (k, w) :: insertA t n v

/-- Code-point comparison of characters, as Python string comparison uses. -/
def listCharLe : List Char → List Char → Bool
  | [], _ => true
  | _ :: _, [] => false
  | a :: as, b :: bs =>
    if a.val.toNat < b.val.toNat then true
    else if b.val.toNat < a.val.toNat then false
    else listCharLe as bs

/-- Lexicographic code-point order on strings (Python `<=` on `str`). -/
def strLeB (a b : String) : Bool := listCharLe a.data b.data

/-- Insert a string into an already sorted list, keeping it sorted. -/
def insertSorted (a : String) : List String → List String
  | [] => [a]
  | b :: t => if strLeB a b then a :: b :: t else b :: insertSorted a t

/-- Embedding of Python `sorted` on a list of strings (insertion sort by
code-point order; only the resulting order matters, not the algorithm). -/
def sortStr (l : List String) : List String := l.foldr insertSorted []

/-- The keys of a parameter/gradient dictionary in Python `sorted` order,
as used by the flattening accessors. -/
def sortedKeys {α : Type} (ps : List (String × α)) : List String :=
  sortStr (ps.map Prod.fst)

/-- Mutable state owned by one layer instance: its parameter dictionary
`prms_` and its gradient dictionary `grad_`. -/
structure LayerState where
  prms : List (String × NDArr)
  grad : List (String × NDArr)
  deriving DecidableEq, Repr

/-- Embedding of `BaseLayer.flat_gradient`: concatenate the raveled gradient
arrays in sorted-name order.  The source has no empty guard, so an empty
gradient dictionary reaches `np.concatenate([])`, which raises a ValueError. -/
def BaseLayer.flat_gradient (st : LayerState) : Except PyErr (List Int) :=
  if st.grad.isEmpty then .error .valueError
  else .ok ((sortedKeys st.grad).flatMap (fun n => ((lookupA st.grad n).getD npEmpty0).data))

/-- Embedding of the `BaseLayer.flat_parameters` getter: an explicit guard
returns `np.empty((0,))` for an empty parameter dictionary, otherwise the
raveled parameter arrays are concatenated in sorted-name order. -/
def BaseLayer.flat_parameters (st : LayerState) : List Int :=
  if st.prms.isEmpty then []
  else (sortedKeys st.prms).flatMap (fun n => ((lookupA st.prms n).getD npEmpty0).data)

/-- Embedding of the loop body of the `flat_parameters` setter: walk the
sorted key list, give each parameter the next slice of the value vector
(`prms_[n].flat[...] = value[k:kk]` keeps the shape and replaces the data;
a single element broadcasts, any other length mismatch raises a ValueError),
and advance the offset.  Consecutive slices of the remaining vector are taken
as prefixes, which is the same slicing the source performs with absolute
indices `k:kk`. -/
def setSlices (ps : List (String × NDArr)) : List String → List Int →
    Except PyErr (List (String × NDArr))
  | [], _ => .ok ps
  | n :: rest, v =>
    let old := (lookupA ps n).getD npEmpty0
    let chunk := v.take old.data.length
    if chunk.length = old.data.length then
      setSlices (insertA ps n ⟨old.shape, chunk⟩) rest (v.drop old.data.length)
    else if chunk.length = 1 then
      setSlices (insertA ps n ⟨old.shape, List.replicate old.data.length chunk.headI⟩)
        rest (v.drop old.data.length)
    else .error .valueError

/-- Embedding of the `BaseLayer.flat_parameters` setter. -/
def BaseLayer.set_flat_parameters (st : LayerState) (v : List Int) :
    Except PyErr LayerState :=
  (setSlices st.prms (sortedKeys st.prms) v).map (fun ps => { st with prms := ps })

/-- Attribute environment of a layer object at `BaseLayer.__init__` time.
`attrs` are the names for which `hasattr(self, n)` is true before the
configuration loop runs (class attributes: methods, properties, and
class-level options such as `sigma` or `output_shape`; `prms_` and `grad_`
are not yet assigned at that point).  `settable` are the members of `attrs`
for which `setattr(self, n, v)` stores the value: plain methods and
class-level options.  Read-only properties (`type`, `gradient`,
`flat_gradient`, `parameters`) make `setattr` raise an AttributeError, and
so does the `flat_parameters` property setter at construction time because
it reads the not-yet-assigned `prms_`. -/
structure AttrTable where
  attrs : List String
  settable : List String

/-- One iteration of the configuration loop of `BaseLayer.__init__`: an
unknown attribute name raises the configuration error
(`Exception("Attribute not found")`), a read-only attribute raises an
AttributeError from `setattr`, and otherwise the value is stored on the
instance. -/
def initStep {α : Type} (tbl : AttrTable) (store : List (String × α))
    (p : String × α) : Except PyErr (List (String × α)) :=
  if tbl.attrs.contains p.1 then
    if tbl.settable.contains p.1 then .ok (insertA store p.1 p.2)
    else .error .attributeError
  else .error .configurationError

/-- Embedding of the configuration loop of `BaseLayer.__init__` over the
supplied keyword options (kwargs, so the option names are distinct). -/
def BaseLayer.init {α : Type} (tbl : AttrTable) (lPrms : List (String × α)) :
    Except PyErr (List (String × α)) :=
  lPrms.foldlM (initStep tbl) []

/-- Class-level member names shared by every layer through `BaseLayer`. -/
def baseMembers : List String :=
  ["type", "forward", "backward", "setup", "gradient", "flat_gradient",
   "flat_parameters", "parameters", "get_mutable_gradient"]

/-- Members of `baseMembers` that plain `setattr` can store (methods). -/
def baseSettableMembers : List String :=
  ["forward", "backward", "setup", "get_mutable_gradient"]

/-- Attribute table of `ReLU` (no extra class options). -/
def reluAttrTable : AttrTable := ⟨baseMembers, baseSettableMembers⟩

/-- Attribute table of `Sigmoid` (class option `sigma`). -/
def sigmoidAttrTable : AttrTable :=
  ⟨baseMembers ++ ["sigma"], baseSettableMembers ++ ["sigma"]⟩

/-- Attribute table of `InnerProduct` (class option `output_shape`). -/
def innerProductAttrTable : AttrTable :=
  ⟨baseMembers ++ ["output_shape"], baseSettableMembers ++ ["output_shape"]⟩

/-- Stated from the spec for comparison with the source behaviour: the
layer-specific recognized configuration options of the sigmoid layer are
exactly `sigma`. -/
def specConfigOptionsSigmoid : List String := ["sigma"]

/-- Zip four equal-role lists positionally, as Python
`zip(bottom, top, botgrad, topgrad)` does (stopping at the shortest). -/
def zip4 {α : Type} : List α → List α → List α → List α → List (α × α × α × α)
  | a :: as, b :: bs, c :: cs, d :: ds => (a, b, c, d) :: zip4 as bs cs ds
  | _, _, _, _ => []

/-- Behaviour of one layer object, as the `Network` calls it.  `setupF` may
resize the top blobs in place and allocate parameter/gradient storage;
`forwardF` writes the top blobs in place; `backwardF` writes the bottom
gradients in place and overwrites the layer's own gradient storage.  The
written-back arrays are returned explicitly because the embedding is pure;
none of the source layers mutate any other argument. -/
structure LayerFns where
  setupF : LayerState → List NDArr → List NDArr → Except PyErr (LayerState × List NDArr)
  forwardF : LayerState → List NDArr → List NDArr → Except PyErr (List NDArr)
  backwardF : LayerState → List NDArr → List NDArr → List NDArr → List NDArr →
    Except PyErr (LayerState × List NDArr)

/-- Embedding of the `ReLU` layer: setup resizes each top blob to the paired
bottom blob's shape; forward writes `np.maximum(b, 0)` into each top blob;
backward writes `dt * (t > 0)` into each bottom gradient. -/
def ReLU : LayerFns where
  setupF := fun st bottom top =>
    .ok (st, (bottom.zip top).map (fun bt => resizeArr bt.2 bt.1.shape))
  forwardF := fun _ bottom top =>
    (bottom.zip top).mapM (fun bt => writeArr bt.2 (npMaximum0 bt.1))
  backwardF := fun st bottom top botgrad topgrad => do
    let bg ← (zip4 bottom top botgrad topgrad).mapM (fun q => do
      let m ← npMul q.2.2.2 (npGtZero q.2.1)
      writeArr q.2.2.1 m)
    .ok (st, bg)

/-- Transpose of a rectangular two-dimensional array (`np.transpose`). -/
def npTranspose2 (M : List (List Int)) : List (List Int) :=
  (List.range M.headI.length).map (fun j => M.map (fun row => row.getD j 0))

/-- Embedding of `np.dot` on two one-dimensional arrays: the inner product;
mismatched lengths raise a ValueError. -/
def npDotVV (a b : List Int) : Except PyErr Int :=
  if a.length = b.length then .ok ((a.zip b).map (fun p => p.1 * p.2)).sum
  else .error .valueError

/-- Embedding of `np.dot` of a one-dimensional array with a two-dimensional
array: contraction over the matrix rows; a length/row-count mismatch raises
a ValueError. -/
def npDotVM (v : List Int) (M : List (List Int)) : Except PyErr (List Int) :=
  if v.length = M.length then (npTranspose2 M).mapM (fun col => npDotVV v col)
  else .error .valueError

/-- Embedding of the in-place vector assignment `x[...] = y` for
one-dimensional data (same rules as `writeArr`). -/
def writeVec (x y : List Int) : Except PyErr (List Int) :=
  if y.length = x.length then .ok y
  else if y.length = 1 then .ok (List.replicate x.length y.headI)
  else .error .valueError

/-- Embedding of `InnerProduct.setup` for a one-dimensional bottom blob of
`n` elements and `output_shape` of `m` elements: `w` is an `n × m` zero
matrix, `b` a zero vector of `m` elements, and the gradient storage `gw`,
`gb` are zero arrays of the same shapes. -/
def InnerProduct.setup1d (n m : Nat) :
    List (List Int) × List Int × List (List Int) × List Int :=
  (List.replicate n (List.replicate m 0), List.replicate m 0,
   List.replicate n (List.replicate m 0), List.replicate m 0)

/-- Embedding of `InnerProduct.backward` for one-dimensional bottom and top
blobs.  Exactly as in the source: the bottom gradient is
`np.dot(topgrad[0], np.transpose(self.grad_['w']))` — note the contraction
uses the gradient storage `grad_['w']`, not the parameter `prms_['w']` —
then `grad_['w']` is overwritten with
`np.dot(topgrad[0].transpose(), bottom[0]).transpose()` (for one-dimensional
operands an inner-product scalar, broadcast over the matrix) and `grad_['b']`
with `np.sum(topgrad[0], axis=0)` (a scalar, broadcast over the vector). -/
def InnerProduct.backward1d (gw : List (List Int)) (gb : List Int)
    (bottom botgrad topgrad : List Int) :
    Except PyErr (List Int × List (List Int) × List Int) := do
  let bgVal ← npDotVM topgrad (npTranspose2 gw)
  let bg ← writeVec botgrad bgVal
  let s ← npDotVV topgrad bottom
  let gw1 := gw.map (fun row => row.map (fun _ => s))
  let gb1 := gb.map (fun _ => topgrad.sum)
  .ok (bg, gw1, gb1)

/-- Stated from the spec for comparison with the source behaviour: the
downstream gradient of the affine layer is the adjoint contraction of the
upstream gradient against the layer's weight parameter `w`. -/
def specAdjointBotgrad (w : List (List Int)) (topgrad : List Int) :
    Except PyErr (List Int) :=
  npDotVM topgrad (npTranspose2 w)

/-- Stated from the spec for comparison with the source behaviour: the
gradient of the objective with respect to `w` is the adjoint contraction of
the bottom value with the upstream gradient (the outer product in the
one-dimensional case). -/
def specAdjointWGrad (bottom topgrad : List Int) : List (List Int) :=
  bottom.map (fun bi => topgrad.map (fun dj => bi * dj))

/-- One registered entry of a `Network`: the registered name, the layer's
behaviour, the layer instance's own mutable state, and the ordered input and
output blob names.  Each entry carries its own `LayerState`, matching one
layer instance per entry. -/
structure LayerEntry where
  name : String
  layer : LayerFns
  st : LayerState
  inputs : List String
  outputs : List String

/-- The `Network`: the ordered registry of entries, the blob and diff
storages, and the blob snapshot stack. -/
structure Network where
  layers : List LayerEntry
  blobs : List (String × NDArr)
  diffs : List (String × NDArr)
  blob_history : List (List (String × NDArr))

/-- A freshly constructed `Network` after its `addLayer` calls: the given
entries, and empty blob, diff and history storage. -/
def Network.new (entries : List LayerEntry) : Network := ⟨entries, [], [], []⟩

/-- Embedding of `self._get_blobs` / `self._get_diffs`: look up each name,
raising a KeyError on a missing one. -/
def getArrs (store : List (String × NDArr)) (names : List String) :
    Except PyErr (List NDArr) :=
  names.mapM (fun n =>
    match lookupA store n with
    | some a => .ok a
    | none => .error .keyError)

/-- The per-entry loop of `Network.setup`: create an `np.empty((0,))`
placeholder for every not-yet-present input/output name, call the layer's
`setup` with its input and output blobs, and store the resized top blobs
back under the output names.  Returns the entries with their updated layer
states together with the final blob storage. -/
def placeholderStep (bs : List (String × NDArr)) (s : String) : List (String × NDArr) :=
  if containsA bs s then bs else insertA bs s npEmpty0

/-- The per-entry loop of `Network.setup` (continued): placeholders, the
layer's `setup` call, and the write-back of the resized top blobs. -/
def setupEntries : List LayerEntry → List (String × NDArr) →
    Except PyErr (List LayerEntry × List (String × NDArr))
  | [], blobs => .ok ([], blobs)
  | e :: rest, blobs => do
    let blobs1 := (e.inputs ++ e.outputs).foldl placeholderStep blobs
    let bi ← getArrs blobs1 e.inputs
    let bo ← getArrs blobs1 e.outputs
    let (st1, tops) ← e.layer.setupF e.st bi bo
    let blobs2 := (e.outputs.zip tops).foldl (fun bs p => insertA bs p.1 p.2) blobs1
    let (es, blobsF) ← setupEntries rest blobs2
    .ok ({ e with st := st1 } :: es, blobsF)

/-- Embedding of `Network.setup`: seed the blobs with `0*kwargs[n]` for every
caller-supplied initial blob, run every entry's layer `setup` in registration
order, then create one diff per blob as `0*self._blobs[n]`. -/
def Network.setup (net : Network) (kw : List (String × NDArr)) :
    Except PyErr Network := do
  let blobs0 := kw.foldl (fun bs p => insertA bs p.1 (zeroTimes p.2)) net.blobs
  let (es, blobs1) ← setupEntries net.layers blobs0
  let diffs1 := blobs1.foldl (fun ds p => insertA ds p.1 (zeroTimes p.2)) net.diffs
  .ok { net with layers := es, blobs := blobs1, diffs := diffs1 }

/-- Embedding of the keyword-argument loop of `forward1`/`backward1`:
`store[n][...] = kwargs[n]` for each supplied name, in order — an in-place
overwrite of an existing array (KeyError if the name is absent). -/
def writeStep (bs : List (String × NDArr)) (p : String × NDArr) :
    Except PyErr (List (String × NDArr)) :=
  match lookupA bs p.1 with
  | none => .error .keyError
  | some cur =>
    match writeArr cur p.2 with
    | .error e => .error e
    | .ok w => .ok (insertA bs p.1 w)

/-- Embedding of the keyword-argument loop itself (see `writeStep`). -/
def writeInto (store kw : List (String × NDArr)) :
    Except PyErr (List (String × NDArr)) :=
  kw.foldlM writeStep store

/-- The per-entry loop of `Network.forward1`: call each layer's `forward`
with its input and output blobs, in registration order, storing the written
top blobs back under the output names. -/
def forwardEntries : List LayerEntry → List (String × NDArr) →
    Except PyErr (List (String × NDArr))
  | [], blobs => .ok blobs
  | e :: rest, blobs => do
    let bi ← getArrs blobs e.inputs
    let bo ← getArrs blobs e.outputs
    let tops ← e.layer.forwardF e.st bi bo
    forwardEntries rest ((e.outputs.zip tops).foldl (fun bs p => insertA bs p.1 p.2) blobs)

/-- Embedding of `Network.forward1`: overwrite the named blobs with the
supplied values, then run every layer's `forward` in registration order.
Only the blob storage changes. -/
def Network.forward1 (net : Network) (kw : List (String × NDArr)) :
    Except PyErr Network := do
  let blobs0 ← writeInto net.blobs kw
  let blobs1 ← forwardEntries net.layers blobs0
  .ok { net with blobs := blobs1 }

/-- The per-entry loop of `Network.backward1` over an already-reversed entry
list: call each layer's `backward` with its input/output blobs and
input/output diffs, store the written bottom gradients back under the input
names, and record the invoked entry's registered name in an invocation
trace. -/
def backwardEntries : List LayerEntry → List (String × NDArr) → List (String × NDArr) →
    Except PyErr (List LayerEntry × List (String × NDArr) × List String)
  | [], _, diffs => .ok ([], diffs, [])
  | e :: rest, blobs, diffs => do
    let bi ← getArrs blobs e.inputs
    let bo ← getArrs blobs e.outputs
    let di ← getArrs diffs e.inputs
    let dd ← getArrs diffs e.outputs
    let (st1, bg) ← e.layer.backwardF e.st bi bo di dd
    let diffs1 := (e.inputs.zip bg).foldl (fun ds p => insertA ds p.1 p.2) diffs
    let (es, diffs2, tr) ← backwardEntries rest blobs diffs1
    .ok ({ e with st := st1 } :: es, diffs2, e.name :: tr)

/-- Embedding of `Network.backward1`, instrumented with the invocation
trace: overwrite the named diffs with the supplied values, then run every
layer's `backward` over `self._layers[::-1]` — the reversed registration
list. -/
def Network.backward1Core (net : Network) (kw : List (String × NDArr)) :
    Except PyErr (Network × List String) := do
  let diffs0 ← writeInto net.diffs kw
  let (esR, diffs1, tr) ← backwardEntries net.layers.reverse net.blobs diffs0
  .ok ({ net with layers := esR.reverse, diffs := diffs1 }, tr)

/-- Embedding of `Network.backward1` (the state part of the run). -/
def Network.backward1 (net : Network) (kw : List (String × NDArr)) :
    Except PyErr Network :=
  (net.backward1Core kw).map Prod.fst

/-- Embedding of `Network.pushState`: append a deep copy of the blob storage
to the history stack (values are immutable here, so a copy is the value
itself). -/
def Network.pushState (net : Network) : Network :=
  { net with blob_history := net.blob_history ++ [net.blobs] }

/-- Embedding of `Network.popState`: `self._blobs = self._blob_history.pop()`
— replace the blob storage with the most recently pushed snapshot and drop
it from the stack; popping an empty history raises an IndexError. -/
def Network.popState (net : Network) : Except PyErr Network :=
  match net.blob_history.getLast? with
  | none => .error .indexError
  | some b => .ok { net with blobs := b, blob_history := net.blob_history.dropLast }

/-- The invocation trace of a backward run, empty when the run fails. -/
def backwardTrace (net : Network) (kw : List (String × NDArr)) : List String :=
  match net.backward1Core kw with
  | .ok p => p.2
  | .error _ => []

/-- Embedding of the `Network.parameters` accessor.  A first-seen name takes
the layer's own parameter dictionary.  For a repeated name the source
executes `assert set(g.keys()) == set(m.keys())` — but `m` is an unbound
local variable at that point (it is only bound by the later `for m in g`
loop), so the branch raises a NameError before any comparison or summation
can happen. -/
def Network.parameters (net : Network) :
    Except PyErr (List (String × List (String × NDArr))) :=
  net.layers.foldlM (fun r e =>
    if containsA r e.name then .error .nameError
    else .ok (insertA r e.name e.st.prms)) []

/-- Embedding of the `Network.gradient` accessor; same structure (and same
unbound-variable NameError on a repeated name) as `Network.parameters`. -/
def Network.gradient (net : Network) :
    Except PyErr (List (String × List (String × NDArr))) :=
  net.layers.foldlM (fun r e =>
    if containsA r e.name then .error .nameError
    else .ok (insertA r e.name e.st.grad)) []

/-- Embedding of the `Network.flat_gradient` accessor.  A first-seen name
evaluates the layer's `flat_gradient` (which raises a ValueError when the
layer registered no gradients).  For a repeated name the source evaluates
`g = l.flat_gradient` and then `set(g.keys())` — but `g` is a numpy array,
which has no `keys` attribute, so the branch raises an AttributeError.
Finally the per-name vectors are concatenated in sorted-name order
(`np.concatenate` of an empty list — a network with no layers — raises a
ValueError). -/
def flatGradStep (r : List (String × List Int)) (e : LayerEntry) :
    Except PyErr (List (String × List Int)) :=
  if containsA r e.name then
    match BaseLayer.flat_gradient e.st with
    | .error err => .error err
    | .ok _ => .error .attributeError
  else
    match BaseLayer.flat_gradient e.st with
    | .error err => .error err
    | .ok fg => .ok (insertA r e.name fg)

/-- Embedding of the `Network.flat_gradient` accessor (see the comment just
above for the per-entry loop `flatGradStep`). -/
def Network.flat_gradient (net : Network) : Except PyErr (List Int) := do
  let r ← net.layers.foldlM flatGradStep ([] : List (String × List Int))
  if r.isEmpty then .error .valueError
  else .ok ((sortStr (r.map Prod.fst)).flatMap (fun n => (lookupA r n).getD []))

/-- Embedding of the `Network.flat_parameters` accessor; same structure as
`Network.flat_gradient`, except that the layer-level getter never raises. -/
def Network.flat_parameters (net : Network) : Except PyErr (List Int) := do
  let r ← net.layers.foldlM (fun r e =>
    if containsA r e.name then Except.error PyErr.attributeError
    else Except.ok (insertA r e.name (BaseLayer.flat_parameters e.st)))
    ([] : List (String × List Int))
  if r.isEmpty then .error .valueError
  else .ok ((sortStr (r.map Prod.fst)).flatMap (fun n => (lookupA r n).getD []))

/-- Embedding of numpy elementwise `+` on same-shaped arrays (the operation
the aggregation accessors are documented to perform on repeated names). -/
def npAdd (a b : NDArr) : Except PyErr NDArr :=
  if a.shape = b.shape then .ok ⟨a.shape, (a.data.zip b.data).map (fun p => p.1 + p.2)⟩
  else .error .valueError

/-- A two-element one-dimensional array. -/
def arr2 (a b : Int) : NDArr := ⟨[2], [a, b]⟩

/-- A parameterless layer state, as `ReLU` instances have after setup. -/
def emptySt : LayerState := ⟨[], []⟩

/-- Test fixture: entry `A`, a ReLU from blob `x` to blob `h1`. -/
def entryA : LayerEntry := ⟨"A", ReLU, emptySt, ["x"], ["h1"]⟩

/-- Test fixture: entry `B`, a ReLU from blob `h1` to blob `h2`. -/
def entryB : LayerEntry := ⟨"B", ReLU, emptySt, ["h1"], ["h2"]⟩

/-- Test fixture: entry `C`, a ReLU from blob `h2` to blob `y`. -/
def entryC : LayerEntry := ⟨"C", ReLU, emptySt, ["h2"], ["y"]⟩

/-- Test fixture: the blob (and diff) storage of the three-layer chain after
its setup: four two-element zero arrays. -/
def chainStore : List (String × NDArr) :=
  [("x", arr2 0 0), ("h1", arr2 0 0), ("h2", arr2 0 0), ("y", arr2 0 0)]

/-- Test fixture: the chain `A → B → C` in the Ready state. -/
def chainNet : Network := ⟨[entryA, entryB, entryC], chainStore, chainStore, []⟩

/-- Test fixture: a Ready network with no layers and one diff entry `d`. -/
def noLayerNet : Network := ⟨[], [("d", arr2 0 0)], [("d", arr2 0 0)], []⟩

/-- Test fixture: a layer state owning one parameter `w = [1, 2]` with
zeroed gradient storage. -/
def stW1 : LayerState := ⟨[("w", arr2 1 2)], [("w", arr2 0 0)]⟩

/-- Test fixture: a layer state owning one parameter `w = [10, 20]` with
zeroed gradient storage. -/
def stW2 : LayerState := ⟨[("w", arr2 10 20)], [("w", arr2 0 0)]⟩

/-- Test fixture: a layer state owning one parameter `v = [3, 4]` (a key set
different from `stW1`). -/
def stV : LayerState := ⟨[("v", arr2 3 4)], [("v", arr2 0 0)]⟩

/-- Test fixture: two entries registered under the same name `shared`, whose
layers hold identically keyed, identically shaped parameter dictionaries. -/
def sharedNet : Network :=
  ⟨[⟨"shared", ReLU, stW1, ["x"], ["y"]⟩, ⟨"shared", ReLU, stW2, ["y"], ["z"]⟩], [], [], []⟩

/-- Test fixture: a single entry registered once under the name `A`. -/
def singleNet : Network := ⟨[⟨"A", ReLU, stW1, ["x"], ["y"]⟩], [], [], []⟩

/-- Test fixture: two entries sharing the name `S` whose layers' parameter
and gradient key sets differ (`w` versus `v`). -/
def diffKeysNet : Network :=
  ⟨[⟨"S", ReLU, stW1, ["x"], ["y"]⟩, ⟨"S", ReLU, stV, ["y"], ["z"]⟩], [], [], []⟩

/-- Test fixture: the identity weight matrix the affine-layer parameter `w`
is set to in the C8 scenario. -/
def ipIdentW : List (List Int) := [[1, 0], [0, 1]]

/-- Test fixture: `InnerProduct.setup` storage for a two-element bottom blob
and `output_shape` of two elements. -/
def ipSetup : List (List Int) × List Int × List (List Int) × List Int :=
  InnerProduct.setup1d 2 2

/-- Test fixture: the keyword arguments of a forward pass feeding `x`. -/
def fwdKw : List (String × NDArr) := [("x", ⟨[2], [3, -2]⟩)]

/-- Test fixture: the chain network after `pushState` followed by
`forward1` with `fwdKw` (each ReLU writes `max(input, 0)` forward). -/
def chainNetAfterFwd : Network :=
  { layers := [entryA, entryB, entryC],
    blobs := [("x", ⟨[2], [3, -2]⟩), ("h1", arr2 3 0), ("h2", arr2 3 0), ("y", arr2 3 0)],
    diffs := chainStore,
    blob_history := [chainStore] }

/-- Test fixture: `noLayerNet` after `backward1` overwrote the diff `d`. -/
def noLayerNetAfter : Network :=
  { layers := [], blobs := [("d", arr2 0 0)], diffs := [("d", arr2 5 6)],
    blob_history := [] }

/-- Test fixture: a layer state owning a `2 × 2` parameter `w` and a
two-element parameter `b` (total element count six). -/
def twoPrmSt : LayerState :=
  ⟨[("w", ⟨[2, 2], [0, 0, 0, 0]⟩), ("b", arr2 0 0)], []⟩

theorem lookupA_insertA_self {α : Type} (l : List (String × α)) (n : String) (v : α) :
    lookupA (insertA l n v) n = some v := by
  induction l with
  | nil => simp [insertA, lookupA]
  | cons p t ih =>
    by_cases h : p.1 = n
    · simp [insertA, h, lookupA]
    · simp [insertA, h, lookupA, ih]

theorem lookupA_insertA_ne {α : Type} (l : List (String × α)) (n m : String) (v : α)
    (h : m ≠ n) : lookupA (insertA l n v) m = lookupA l m := by
  induction l with
  | nil => simp [insertA, lookupA, Ne.symm h]
  | cons p t ih =>
    by_cases hp : p.1 = n
    · subst hp
      simp only [insertA, if_pos rfl, lookupA]
      rw [if_neg (fun hh => h hh.symm), if_neg (fun hh => h hh.symm)]
    · simp only [insertA, if_neg hp, lookupA]
      by_cases hm : p.1 = m
      · simp [hm]
      · simp [hm, ih]

theorem mem_keys_iff_lookupA {α : Type} (l : List (String × α)) (n : String) :
    n ∈ l.map Prod.fst ↔ (lookupA l n).isSome := by
  induction l with
  | nil => simp [lookupA]
  | cons p t ih =>
    rcases p with ⟨k, v⟩
    by_cases h : k = n
    · subst h
      simp [lookupA]
    · simp only [List.map_cons, List.mem_cons, lookupA, if_neg h]
      rw [← ih]
      constructor
      · rintro (rfl | hm)
        · exact absurd rfl h
        · exact hm
      · exact fun hm => Or.inr hm

theorem containsA_iff_mem_keys {α : Type} (l : List (String × α)) (n : String) :
    containsA l n = true ↔ n ∈ l.map Prod.fst := by
  rw [containsA, mem_keys_iff_lookupA]

theorem keys_insertA_of_mem {α : Type} (l : List (String × α)) (n : String) (v : α)
    (h : n ∈ l.map Prod.fst) : (insertA l n v).map Prod.fst = l.map Prod.fst := by
  induction l with
  | nil => simp at h
  | cons p t ih =>
    rcases p with ⟨k, w⟩
    by_cases hp : k = n
    · simp [insertA, hp]
    · simp only [List.map_cons, List.mem_cons] at h
      rcases h with h1 | h2
      · exact absurd h1.symm hp
      · simp [insertA, hp, ih h2]

theorem keys_insertA_of_not_mem {α : Type} (l : List (String × α)) (n : String) (v : α)
    (h : n ∉ l.map Prod.fst) :
    (insertA l n v).map Prod.fst = l.map Prod.fst ++ [n] := by
  induction l with
  | nil => simp [insertA]
  | cons p t ih =>
    have hp : p.1 ≠ n := by
      intro hh
      exact h (by simp [hh])
    have ht : n ∉ t.map Prod.fst := fun hm => h (by simp [hm])
    simp [insertA, hp, ih ht]

theorem mem_keys_insertA {α : Type} (l : List (String × α)) (n m : String) (v : α) :
    m ∈ (insertA l n v).map Prod.fst ↔ m = n ∨ m ∈ l.map Prod.fst := by
  by_cases h : n ∈ l.map Prod.fst
  · rw [keys_insertA_of_mem l n v h]
    constructor
    · exact fun hm => Or.inr hm
    · rintro (rfl | hm)
      · exact h
      · exact hm
  · rw [keys_insertA_of_not_mem l n v h]
    simp [or_comm]

theorem nodup_keys_insertA {α : Type} (l : List (String × α)) (n : String) (v : α)
    (h : (l.map Prod.fst).Nodup) : ((insertA l n v).map Prod.fst).Nodup := by
  by_cases hm : n ∈ l.map Prod.fst
  · rwa [keys_insertA_of_mem l n v hm]
  · rw [keys_insertA_of_not_mem l n v hm]
    refine List.Nodup.append h (List.nodup_singleton n) ?_
    intro x hx hx2
    rcases List.mem_singleton.mp hx2 with rfl
    exact hm hx

theorem insertSorted_perm (a : String) (l : List String) :
    (insertSorted a l).Perm (a :: l) := by
  induction l with
  | nil => simp [insertSorted]
  | cons b t ih =>
    simp only [insertSorted]
    split
    · exact List.Perm.refl _
    · exact (List.Perm.cons b ih).trans (List.Perm.swap a b t)

theorem sortStr_perm (l : List String) : (sortStr l).Perm l := by
  induction l with
  | nil => simp [sortStr]
  | cons a t ih =>
    simp only [sortStr, List.foldr_cons]
    exact (insertSorted_perm a _).trans (List.Perm.cons a ih)

theorem sortedKeys_perm {α : Type} (ps : List (String × α)) :
    (sortedKeys ps).Perm (ps.map Prod.fst) := sortStr_perm _

theorem exc_bind_ok {ε α β : Type} (a : α) (f : α → Except ε β) :
    (Except.ok a : Except ε α) >>= f = f a := rfl

theorem exc_bind_error {ε α β : Type} (e : ε) (f : α → Except ε β) :
    (Except.error e : Except ε α) >>= f = .error e := rfl

theorem exc_isOk_ok {ε α : Type} (a : α) : (Except.ok a : Except ε α).isOk = true := rfl

theorem exc_isOk_error {ε α : Type} (e : ε) :
    (Except.error e : Except ε α).isOk = false := rfl

/-- C1: the claim states that two entries registered under the same name with
identically keyed, identically shaped parameter dictionaries aggregate to the
element-wise sum of the two parameter arrays.  Evaluating the embedded
accessor shows the code instead raises a NameError on any repeated name: the
duplicate-name branch executes `assert set(g.keys()) == set(m.keys())` with
`m` unbound.  The single-registration half of the claim does hold, and the
element-wise sum the claim promises would have been `[11, 22]`. -/
theorem claim1_shared_name_parameters_nameError :
    Network.parameters sharedNet = .error .nameError ∧
    Network.parameters singleNet = .ok [("A", [("w", arr2 1 2)])] ∧
    npAdd (arr2 1 2) (arr2 10 20) = .ok (arr2 11 22) := by
  refine ⟨rfl, rfl, rfl⟩

/-- C5: the claim states that two same-named entries with differing parameter
or gradient key-sets make `parameters`, `gradient` and the flat variants fail
with an AggregationInconsistency error.  Evaluating the embedded accessors on
such a network shows they do fail, but with a NameError (dict accessors) or
an AttributeError (flat accessors) raised before any key-set comparison — the
consistency assert is unreachable, and the same failure occurs even when the
key-sets are identical (`sharedNet`).  No AssertionError (the error class of
the intended consistency check) is ever produced. -/
theorem claim5_aggregation_error_is_nameError :
    Network.gradient diffKeysNet = .error .nameError ∧
    Network.parameters diffKeysNet = .error .nameError ∧
    Network.flat_gradient diffKeysNet = .error .attributeError ∧
    Network.flat_parameters diffKeysNet = .error .attributeError ∧
    Network.gradient sharedNet = .error .nameError ∧
    PyErr.nameError ≠ PyErr.assertionError := by
  refine ⟨rfl, rfl, rfl, rfl, rfl, by decide⟩

/-- C8: the claim states that the affine layer's `backward` writes into the
bottom gradient the adjoint contraction of the upstream gradient against the
weight parameter `w`.  Evaluating the embedded `InnerProduct.backward` right
after setup (gradient storage zeroed) with the parameter `w` set to the
identity matrix shows the code contracts against the stale gradient storage
`grad_['w']` instead and produces `[0, 0]`, while the claimed contraction
against `w` gives `[1, 1]`; the written `w`-gradient (a broadcast inner
product) likewise differs from the adjoint outer product. -/
theorem claim8_backward_contracts_stale_gradient :
    InnerProduct.backward1d ipSetup.2.2.1 ipSetup.2.2.2 [5, 7] [0, 0] [1, 1]
      = .ok ([0, 0], [[12, 12], [12, 12]], [2, 2]) ∧
    specAdjointBotgrad ipIdentW [1, 1] = .ok [1, 1] ∧
    specAdjointWGrad [5, 7] [1, 1] = [[5, 5], [7, 7]] ∧
    ([0, 0] : List Int) ≠ [1, 1] ∧
    ([[12, 12], [12, 12]] : List (List Int)) ≠ [[5, 5], [7, 7]] := by
  refine ⟨rfl, rfl, rfl, by decide, by decide⟩

theorem foldlM_initStep_isOk {α : Type} (tbl : AttrTable) (lPrms : List (String × α))
    (store : List (String × α)) :
    (lPrms.foldlM (initStep tbl) store).isOk = true ↔
      ∀ p ∈ lPrms, tbl.attrs.contains p.1 = true ∧ tbl.settable.contains p.1 = true := by
  induction lPrms generalizing store with
  | nil =>
    rw [List.foldlM_nil]
    constructor
    · intro _ p hp
      cases hp
    · intro _
      rfl
  | cons q t ih =>
    rw [List.foldlM_cons, List.forall_mem_cons]
    by_cases h1 : tbl.attrs.contains q.1 = true
    · by_cases h2 : tbl.settable.contains q.1 = true
      · have hstep : initStep tbl store q = .ok (insertA store q.1 q.2) := by
          unfold initStep
          rw [if_pos h1, if_pos h2]
        rw [hstep, exc_bind_ok, ih]
        exact ⟨fun hall => ⟨⟨h1, h2⟩, hall⟩, fun hall => hall.2⟩
      · have hstep : initStep tbl store q = .error .attributeError := by
          unfold initStep
          rw [if_pos h1, if_neg h2]
        rw [hstep, exc_bind_error, exc_isOk_error]
        exact ⟨fun hc => (Bool.false_ne_true hc).elim, fun hall => (h2 hall.1.2).elim⟩
    · have hstep : initStep tbl store q = .error .configurationError := by
        unfold initStep
        rw [if_neg h1]
      rw [hstep, exc_bind_error, exc_isOk_error]
      exact ⟨fun hc => (Bool.false_ne_true hc).elim, fun hall => (h1 hall.1.1).elim⟩

theorem foldlM_initStep_frame {α : Type} (tbl : AttrTable) (t : List (String × α))
    (store store' : List (String × α))
    (h : t.foldlM (initStep tbl) store = .ok store') (m : String)
    (hm : ∀ p ∈ t, p.1 ≠ m) : lookupA store' m = lookupA store m := by
  induction t generalizing store with
  | nil =>
    rw [List.foldlM_nil] at h
    have h' : Except.ok store = Except.ok store' := h
    cases h'
    rfl
  | cons q t ih =>
    rw [List.foldlM_cons] at h
    cases hs : initStep tbl store q with
    | error e =>
      rw [hs, exc_bind_error] at h
      cases h
    | ok s1 =>
      rw [hs, exc_bind_ok] at h
      have hq : q.1 ≠ m := hm q (List.mem_cons_self _ _)
      rw [ih s1 h (fun p hp => hm p (List.mem_cons_of_mem _ hp))]
      unfold initStep at hs
      split at hs
      · split at hs
        · cases hs
          exact lookupA_insertA_ne _ _ _ _ (fun hh => hq hh.symm)
        · cases hs
      · cases hs

theorem foldlM_initStep_stored {α : Type} (tbl : AttrTable) (l : List (String × α))
    (store store' : List (String × α))
    (h : l.foldlM (initStep tbl) store = .ok store')
    (hnd : (l.map Prod.fst).Nodup) :
    ∀ p ∈ l, lookupA store' p.1 = some p.2 := by
  induction l generalizing store with
  | nil =>
    intro p hp
    cases hp
  | cons q t ih =>
    rw [List.foldlM_cons] at h
    cases hs : initStep tbl store q with
    | error e =>
      rw [hs, exc_bind_error] at h
      cases h
    | ok s1 =>
      rw [hs, exc_bind_ok] at h
      rw [List.map_cons, List.nodup_cons] at hnd
      obtain ⟨hq_not, hnd_t⟩ := hnd
      intro p hp
      rcases List.mem_cons.mp hp with rfl | hpt
      · have hside : ∀ r ∈ t, r.1 ≠ p.1 :=
          fun r hr hreq => hq_not (hreq ▸ List.mem_map_of_mem Prod.fst hr)
        rw [foldlM_initStep_frame tbl t s1 store' h p.1 hside]
        unfold initStep at hs
        split at hs
        · split at hs
          · cases hs
            exact lookupA_insertA_self _ _ _
          · cases hs
        · cases hs
      · exact ih s1 h hnd_t p hpt

/-- C9 (amended): constructing a layer from a configuration mapping fails iff
the mapping contains a name that is either not an existing attribute of the
layer (ConfigurationError, unknown attribute) or an attribute `setattr`
cannot store into, such as a read-only property (AttributeError); the check
is `hasattr`, so any settable existing attribute name — including method
names like `forward`, not only the layer-specific configuration options —
is accepted, and on success every supplied option's value is stored on the
instance. -/
theorem claim9_init_succeeds_iff_settable_attr {α : Type} (tbl : AttrTable)
    (lPrms : List (String × α)) (hnd : (lPrms.map Prod.fst).Nodup) :
    ((BaseLayer.init tbl lPrms).isOk = true ↔
      ∀ p ∈ lPrms, tbl.attrs.contains p.1 = true ∧ tbl.settable.contains p.1 = true) ∧
    ∀ store, BaseLayer.init tbl lPrms = .ok store →
      ∀ p ∈ lPrms, lookupA store p.1 = some p.2 := by
  constructor
  · exact foldlM_initStep_isOk tbl lPrms []
  · intro store h
    exact foldlM_initStep_stored tbl lPrms [] store h hnd

/-- C9 counterexample: the claim as stated — construction fails if and only
if an option name is not a recognized layer-specific configuration option —
is false on the code in both directions.  Constructing a sigmoid layer with
the option `forward` (a method name, not a configuration option of the
sigmoid layer, whose only configuration option is `sigma`) succeeds; and
constructing one with the option `type` (an existing attribute, hence
"recognized" by the `hasattr` check) fails, with an AttributeError rather
than the configuration error. -/
theorem claim9_counterexample :
    (BaseLayer.init sigmoidAttrTable [("forward", (3 : Int))]).isOk = true ∧
    specConfigOptionsSigmoid.contains "forward" = false ∧
    BaseLayer.init sigmoidAttrTable [("type", (3 : Int))] = .error .attributeError ∧
    sigmoidAttrTable.attrs.contains "type" = true := by
  refine ⟨by decide, by decide, rfl, by decide⟩

/-- C9 witness: the sigmoid layer accepts its configuration option `sigma`
and stores the supplied value. -/
theorem claim9_witness :
    (BaseLayer.init sigmoidAttrTable [("sigma", (2 : Int))]).isOk = true ∧
    lookupA [("sigma", (2 : Int))] "sigma" = some 2 := by
  have h := claim9_init_succeeds_iff_settable_attr (α := Int) sigmoidAttrTable
    [("sigma", 2)] (by decide)
  exact ⟨h.1.mpr (by decide), h.2 [("sigma", 2)] rfl ("sigma", 2) (by decide)⟩

theorem flatGradStep_error_of_empty (r : List (String × List Int)) (e : LayerEntry)
    (h : e.st.grad = []) : flatGradStep r e = .error .valueError := by
  have hg : BaseLayer.flat_gradient e.st = .error .valueError := by
    unfold BaseLayer.flat_gradient
    rw [h]
    rfl
  unfold flatGradStep
  rw [hg]
  split <;> rfl

theorem foldlM_flatGradStep_not_ok (layers : List LayerEntry)
    (r0 : List (String × List Int)) (h : ∃ e ∈ layers, e.st.grad = []) :
    (layers.foldlM flatGradStep r0).isOk = false := by
  induction layers generalizing r0 with
  | nil =>
    rcases h with ⟨e, he, _⟩
    cases he
  | cons a t ih =>
    rw [List.foldlM_cons]
    rcases h with ⟨e, he, hg⟩
    rcases List.mem_cons.mp he with rfl | ht
    · rw [flatGradStep_error_of_empty r0 e hg, exc_bind_error]
      rfl
    · cases hs : flatGradStep r0 a with
      | error err =>
        rw [exc_bind_error]
        rfl
      | ok r1 =>
        rw [exc_bind_ok]
        exact ih r1 ⟨e, ht, hg⟩

/-- C10: a layer whose gradient dictionary is empty makes `flat_gradient`
raise a ValueError (the unguarded `np.concatenate([])`) rather than return
an empty vector, so the Network-level `flat_gradient` fails on any network
containing such a layer; by contrast `flat_parameters` on a layer with no
parameters returns a zero-length one-dimensional array. -/
theorem claim10_flat_gradient_empty_fails (st : LayerState) (net : Network) :
    (st.grad = [] → BaseLayer.flat_gradient st = .error .valueError) ∧
    (st.prms = [] → BaseLayer.flat_parameters st = []) ∧
    ((∃ e ∈ net.layers, e.st.grad = []) → (Network.flat_gradient net).isOk = false) := by
  refine ⟨?_, ?_, ?_⟩
  · intro h
    unfold BaseLayer.flat_gradient
    rw [h]
    rfl
  · intro h
    unfold BaseLayer.flat_parameters
    rw [h]
    rfl
  · intro h
    unfold Network.flat_gradient
    have hno := foldlM_flatGradStep_not_ok net.layers [] h
    cases hf : net.layers.foldlM flatGradStep ([] : List (String × List Int)) with
    | error err =>
      rw [exc_bind_error]
      rfl
    | ok r =>
      rw [hf, exc_isOk_ok] at hno
      exact Bool.noConfusion hno

/-- C10 witness: a parameterless ReLU-style layer state and the three-ReLU
chain network. -/
theorem claim10_witness :
    BaseLayer.flat_gradient emptySt = .error .valueError ∧
    BaseLayer.flat_parameters emptySt = [] ∧
    (Network.flat_gradient chainNet).isOk = false := by
  have h := claim10_flat_gradient_empty_fails emptySt chainNet
  exact ⟨h.1 rfl, h.2.1 rfl, h.2.2 ⟨entryA, List.mem_cons_self _ _, rfl⟩⟩

theorem relu_mask_mul (xs ys : List Int) :
    (ys.zip ((xs.map (fun v => max v 0)).map (fun v => if 0 < v then (1 : Int) else 0))).map
        (fun p => p.1 * p.2) =
      (xs.zip ys).map (fun p => if 0 < p.1 then p.2 else 0) := by
  induction xs generalizing ys with
  | nil => cases ys <;> rfl
  | cons x xs ih =>
    cases ys with
    | nil => rfl
    | cons y ys =>
      simp only [List.map_cons, List.zip_cons_cons]
      rw [ih]
      congr 1
      by_cases hx : 0 < x
      · have hmx : 0 < max x 0 := lt_max_iff.mpr (Or.inl hx)
        rw [if_pos hx, if_pos hmx, mul_one]
      · have hmx : ¬ 0 < max x 0 := fun hor => (lt_max_iff.mp hor).elim hx (lt_irrefl 0)
        rw [if_neg hx, if_neg hmx, mul_zero]

/-- C7: for every input array `x`, ReLU `forward` writes elementwise
`max(x, 0)` into the top blob, and ReLU `backward` — called with the top blob
holding the forward output, as a backward pass does — writes the upstream
gradient `dy` at positions where `x > 0` and `0` elsewhere into the bottom
gradient. -/
theorem claim7_relu_forward_backward (x t dy db : NDArr)
    (hts : t.shape = x.shape) (hys : dy.shape = x.shape) (hbs : db.shape = x.shape) :
    ReLU.forwardF emptySt [x] [t] = .ok [⟨x.shape, x.data.map (fun v => max v 0)⟩] ∧
    ReLU.backwardF emptySt [x] [⟨x.shape, x.data.map (fun v => max v 0)⟩] [db] [dy] =
      .ok (emptySt, [⟨x.shape, (x.data.zip dy.data).map
        (fun p => if 0 < p.1 then p.2 else 0)⟩]) := by
  have hw : writeArr t (npMaximum0 x) = .ok ⟨x.shape, x.data.map (fun v => max v 0)⟩ := by
    simp [writeArr, npMaximum0, hts]
  have hm : npMul dy (npGtZero ⟨x.shape, x.data.map (fun v => max v 0)⟩) =
      .ok ⟨x.shape, (dy.data.zip ((x.data.map (fun v => max v 0)).map
        (fun v => if 0 < v then (1 : Int) else 0))).map (fun p => p.1 * p.2)⟩ := by
    simp [npMul, npGtZero, hys]
  have hwv : writeArr db (⟨x.shape, (dy.data.zip ((x.data.map (fun v => max v 0)).map
        (fun v => if 0 < v then (1 : Int) else 0))).map (fun p => p.1 * p.2)⟩ : NDArr) =
      .ok ⟨x.shape, (x.data.zip dy.data).map (fun p => if 0 < p.1 then p.2 else 0)⟩ := by
    rw [writeArr]
    simp only [hbs, if_pos rfl]
    rw [relu_mask_mul]
    simp
  constructor
  · show (([x].zip [t]).mapM fun bt => writeArr bt.2 (npMaximum0 bt.1)) = _
    simp only [List.zip_cons_cons, List.zip_nil_right, List.mapM_cons, List.mapM_nil, hw,
      exc_bind_ok]
    rfl
  · show ((zip4 [x] [⟨x.shape, x.data.map (fun v => max v 0)⟩] [db] [dy]).mapM (fun q => do
        let m ← npMul q.2.2.2 (npGtZero q.2.1)
        writeArr q.2.2.1 m) >>= fun bg => Except.ok (emptySt, bg)) = _
    show (([((x : NDArr), (⟨x.shape, x.data.map (fun v => max v 0)⟩ : NDArr), db,
        dy)]).mapM (fun q => do
        let m ← npMul q.2.2.2 (npGtZero q.2.1)
        writeArr q.2.2.1 m) >>= fun bg => Except.ok (emptySt, bg)) = _
    simp only [List.mapM_cons, List.mapM_nil, hm, exc_bind_ok, hwv]
    rfl

/-- C7 witness: the input `[-1, 0, 2]` with upstream gradient
`[10, 20, 30]`. -/
theorem claim7_witness :
    ReLU.forwardF emptySt [⟨[3], [-1, 0, 2]⟩] [⟨[3], [0, 0, 0]⟩] =
      .ok [⟨[3], [0, 0, 2]⟩] ∧
    ReLU.backwardF emptySt [⟨[3], [-1, 0, 2]⟩] [⟨[3], [0, 0, 2]⟩] [⟨[3], [0, 0, 0]⟩]
      [⟨[3], [10, 20, 30]⟩] = .ok (emptySt, [⟨[3], [0, 0, 30]⟩]) := by
  have h := claim7_relu_forward_backward ⟨[3], [-1, 0, 2]⟩ ⟨[3], [0, 0, 0]⟩
    ⟨[3], [10, 20, 30]⟩ ⟨[3], [0, 0, 0]⟩ rfl rfl rfl
  exact ⟨h.1.trans (by rfl), h.2.trans (by rfl)⟩

theorem backwardEntries_trace (l : List LayerEntry) (blobs diffs : List (String × NDArr))
    (out : List LayerEntry × List (String × NDArr) × List String)
    (h : backwardEntries l blobs diffs = .ok out) :
    out.2.2 = l.map (fun e => e.name) := by
  induction l generalizing diffs out with
  | nil =>
    unfold backwardEntries at h
    have h' : Except.ok (([] : List LayerEntry), diffs, ([] : List String)) =
        Except.ok out := h
    cases h'
    rfl
  | cons e t ih =>
    unfold backwardEntries at h
    cases h1 : getArrs blobs e.inputs with
    | error er => rw [h1, exc_bind_error] at h; cases h
    | ok bi =>
    rw [h1, exc_bind_ok] at h
    cases h2 : getArrs blobs e.outputs with
    | error er => rw [h2, exc_bind_error] at h; cases h
    | ok bo =>
    rw [h2, exc_bind_ok] at h
    cases h3 : getArrs diffs e.inputs with
    | error er => rw [h3, exc_bind_error] at h; cases h
    | ok di =>
    rw [h3, exc_bind_ok] at h
    cases h4 : getArrs diffs e.outputs with
    | error er => rw [h4, exc_bind_error] at h; cases h
    | ok dd =>
    rw [h4, exc_bind_ok] at h
    cases h5 : e.layer.backwardF e.st bi bo di dd with
    | error er => rw [h5, exc_bind_error] at h; cases h
    | ok p =>
    rw [h5, exc_bind_ok] at h
    obtain ⟨st1, bg⟩ := p
    have hred : (backwardEntries t blobs
        ((e.inputs.zip bg).foldl (fun ds p => insertA ds p.1 p.2) diffs) >>=
          fun r => match r with
            | (es, diffs2, tr) => Except.ok (({ e with st := st1 } : LayerEntry) :: es,
                diffs2, e.name :: tr)) = Except.ok out := h
    cases h6 : backwardEntries t blobs
        ((e.inputs.zip bg).foldl (fun ds p => insertA ds p.1 p.2) diffs) with
    | error er => rw [h6, exc_bind_error] at hred; cases hred
    | ok r =>
    rw [h6, exc_bind_ok] at hred
    obtain ⟨es, d2, tr⟩ := r
    have h' : Except.ok (({ e with st := st1 } : LayerEntry) :: es, d2, e.name :: tr) =
        Except.ok out := hred
    cases h'
    simp only [List.map_cons]
    exact congrArg (fun l => e.name :: l) (ih _ _ h6)

theorem writeStep_ok_cases (bs : List (String × NDArr)) (p : String × NDArr)
    (s1 : List (String × NDArr)) (h : writeStep bs p = .ok s1) :
    ∃ cur w, lookupA bs p.1 = some cur ∧ writeArr cur p.2 = .ok w ∧
      s1 = insertA bs p.1 w := by
  unfold writeStep at h
  cases hc : lookupA bs p.1 with
  | none =>
    rw [hc] at h
    cases h
  | some cur =>
    rw [hc] at h
    have h2 : (match writeArr cur p.2 with
      | Except.error e => Except.error e
      | Except.ok w => Except.ok (insertA bs p.1 w)) = Except.ok s1 := h
    cases hw : writeArr cur p.2 with
    | error e =>
      rw [hw] at h2
      cases h2
    | ok w =>
      rw [hw] at h2
      have h3 : Except.ok (insertA bs p.1 w) = Except.ok s1 := h2
      cases h3
      exact ⟨cur, w, rfl, hw, rfl⟩

theorem writeInto_frame (kw : List (String × NDArr)) (store store' : List (String × NDArr))
    (h : writeInto store kw = .ok store') (m : String)
    (hm : ∀ p ∈ kw, p.1 ≠ m) : lookupA store' m = lookupA store m := by
  induction kw generalizing store with
  | nil =>
    unfold writeInto at h
    rw [List.foldlM_nil] at h
    have h' : Except.ok store = Except.ok store' := h
    cases h'
    rfl
  | cons q t ih =>
    unfold writeInto at h
    rw [List.foldlM_cons] at h
    cases hs : writeStep store q with
    | error e => rw [hs, exc_bind_error] at h; cases h
    | ok s1 =>
      rw [hs, exc_bind_ok] at h
      obtain ⟨cur, w, hc, hw, rfl⟩ := writeStep_ok_cases store q s1 hs
      have ht : writeInto (insertA store q.1 w) t = .ok store' := h
      rw [ih _ ht (fun p hp => hm p (List.mem_cons_of_mem _ hp))]
      exact lookupA_insertA_ne _ _ _ _
        (fun hh => (hm q (List.mem_cons_self _ _)) hh.symm)

theorem writeInto_lookup (kw : List (String × NDArr)) (store store' : List (String × NDArr))
    (h : writeInto store kw = .ok store') (hnd : (kw.map Prod.fst).Nodup) :
    ∀ n v cur, (n, v) ∈ kw → lookupA store n = some cur → v.shape = cur.shape →
      lookupA store' n = some ⟨cur.shape, v.data⟩ := by
  induction kw generalizing store with
  | nil =>
    intro n v cur hmem
    cases hmem
  | cons q t ih =>
    unfold writeInto at h
    rw [List.foldlM_cons] at h
    cases hs : writeStep store q with
    | error e => rw [hs, exc_bind_error] at h; cases h
    | ok s1 =>
      rw [hs, exc_bind_ok] at h
      obtain ⟨cur1, w1, hc1, hw1, rfl⟩ := writeStep_ok_cases store q s1 hs
      rw [List.map_cons, List.nodup_cons] at hnd
      obtain ⟨hq_not, hnd_t⟩ := hnd
      have ht : writeInto (insertA store q.1 w1) t = .ok store' := h
      intro n v cur hmem hlk hshape
      rcases List.mem_cons.mp hmem with heq | hmt
      · cases heq
        have hc1' : lookupA store n = some cur1 := hc1
        rw [hc1'] at hlk
        have hcc : cur1 = cur := Option.some.inj hlk
        subst hcc
        have hw1' : writeArr cur1 v = .ok w1 := hw1
        rw [writeArr, if_pos hshape] at hw1'
        have hfr : ∀ r ∈ t, r.1 ≠ n := by
          intro r hr hreq
          apply hq_not
          have hmm : r.1 ∈ List.map Prod.fst t := List.mem_map_of_mem Prod.fst hr
          rw [hreq] at hmm
          exact hmm
        have hfin := writeInto_frame t _ store' ht n hfr
        rw [hfin]
        have hli : lookupA (insertA store n w1) n = some w1 := lookupA_insertA_self _ _ _
        rw [hli]
        have hww : Except.ok (⟨cur1.shape, v.data⟩ : NDArr) = Except.ok w1 := hw1'
        cases hww
        rfl
      · have hn_ne : n ≠ q.1 := by
          intro hh
          apply hq_not
          have hmm : (n, v).1 ∈ List.map Prod.fst t := List.mem_map_of_mem Prod.fst hmt
          rw [show (n, v).1 = n from rfl, hh] at hmm
          exact hmm
        have hlk1 : lookupA (insertA store q.1 w1) n = some cur := by
          rw [lookupA_insertA_ne _ _ _ _ hn_ne]
          exact hlk
        exact ih _ ht hnd_t n v cur hmt hlk1 hshape

/-- C2: `backward1` first overwrites each named Diff with the supplied value
and then invokes each registered entry's layer `backward` exactly once, in
exactly the reverse of registration order.  Part one: whenever a backward run
completes, the invocation trace is the reverse of the registration-order name
list (so every entry is invoked exactly once, which the count equation makes
explicit).  Part two: the diff overwrite, observed on a network with no
layers so that no later layer invocation can rewrite the diffs. -/
theorem claim2_backward_reverse_order (net : Network) (kw : List (String × NDArr)) :
    (∀ out, net.backward1Core kw = .ok out →
      out.2 = (net.layers.map (fun e => e.name)).reverse ∧
      ∀ nm, out.2.count nm = (net.layers.map (fun e => e.name)).count nm) ∧
    (net.layers = [] → ∀ net', net.backward1 kw = .ok net' →
      ∀ n v cur, (kw.map Prod.fst).Nodup → (n, v) ∈ kw →
        lookupA net.diffs n = some cur → v.shape = cur.shape →
        lookupA net'.diffs n = some ⟨cur.shape, v.data⟩) := by
  constructor
  · intro out h
    unfold Network.backward1Core at h
    cases h0 : writeInto net.diffs kw with
    | error e => rw [h0, exc_bind_error] at h; cases h
    | ok d0 =>
      rw [h0, exc_bind_ok] at h
      cases h1 : backwardEntries net.layers.reverse net.blobs d0 with
      | error e => rw [h1, exc_bind_error] at h; cases h
      | ok r =>
        rw [h1, exc_bind_ok] at h
        obtain ⟨esR, d1, tr⟩ := r
        have h' : Except.ok (({ net with layers := esR.reverse, diffs := d1 } : Network),
            tr) = Except.ok out := h
        cases h'
        have htr : tr = net.layers.reverse.map (fun e => e.name) :=
          backwardEntries_trace _ _ _ _ h1
        rw [List.map_reverse] at htr
        exact ⟨htr, fun nm => by rw [htr, List.count_reverse]⟩
  · intro hnil net' h n v cur hnd hmem hlk hshape
    unfold Network.backward1 Network.backward1Core at h
    rw [hnil, List.reverse_nil] at h
    cases h0 : writeInto net.diffs kw with
    | error e =>
      rw [h0] at h
      cases h
    | ok d0 =>
      rw [h0] at h
      have h' : Except.ok ({ net with layers := ([] : List LayerEntry), diffs := d0 } :
          Network) = Except.ok net' := h
      cases h'
      exact writeInto_lookup kw net.diffs d0 h0 hnd n v cur hmem hlk hshape

/-- C2 witness: on the three-ReLU chain registered as `A`, `B`, `C`, the
backward trace is `C`, `B`, `A`; on a network with no layers the supplied
diff value is in place after `backward1`. -/
theorem claim2_witness :
    (∀ out, chainNet.backward1Core [("y", arr2 1 (-1))] = .ok out →
      out.2 = ["C", "B", "A"]) ∧
    lookupA noLayerNetAfter.diffs "d" = some (arr2 5 6) := by
  have h := claim2_backward_reverse_order chainNet [("y", arr2 1 (-1))]
  have h2 := claim2_backward_reverse_order noLayerNet [("d", arr2 5 6)]
  constructor
  · intro out hout
    exact (h.1 out hout).1
  · exact h2.2 rfl noLayerNetAfter rfl "d" (arr2 5 6) (arr2 0 0) (by decide) (by decide)
      rfl rfl

theorem forward1_only_blobs (net net' : Network) (kw : List (String × NDArr))
    (h : net.forward1 kw = .ok net') :
    net'.layers = net.layers ∧ net'.diffs = net.diffs ∧
      net'.blob_history = net.blob_history := by
  unfold Network.forward1 at h
  cases h0 : writeInto net.blobs kw with
  | error e => rw [h0, exc_bind_error] at h; cases h
  | ok b0 =>
    rw [h0, exc_bind_ok] at h
    cases h1 : forwardEntries net.layers b0 with
    | error e => rw [h1, exc_bind_error] at h; cases h
    | ok b1 =>
      rw [h1, exc_bind_ok] at h
      have h' : Except.ok ({ net with blobs := b1 } : Network) = Except.ok net' := h
      cases h'
      exact ⟨rfl, rfl, rfl⟩

/-- C4: in the Ready state, `pushState()`, then mutating the blobs through a
`forward` pass, then `popState()` restores every Blob to its value at the
time of the push (value semantics — the snapshot is independent of later
mutations), leaves the Diff mapping, the registered entries and every
layer's Parameters unchanged, and restores the history stack to its state
before the push, so nested snapshots are consumed in LIFO order. -/
theorem claim4_pushState_popState (net net2 : Network) (kw : List (String × NDArr))
    (h : (net.pushState).forward1 kw = .ok net2) :
    ∃ net3, net2.popState = .ok net3 ∧
      net3.blobs = net.blobs ∧
      net3.diffs = net.diffs ∧
      net3.layers = net.layers ∧
      net3.layers.map (fun e => e.st.prms) = net.layers.map (fun e => e.st.prms) ∧
      net3.blob_history = net.blob_history := by
  obtain ⟨hl, hd, hh⟩ := forward1_only_blobs _ _ _ h
  have hh2 : net2.blob_history = net.blob_history ++ [net.blobs] := hh
  have hpop : net2.popState = .ok (Network.mk net2.layers net.blobs net2.diffs
      net.blob_history) := by
    unfold Network.popState
    rw [hh2]
    rw [List.getLast?_concat, List.dropLast_concat]
  refine ⟨_, hpop, rfl, hd, hl, ?_, rfl⟩
  show net2.layers.map (fun e => e.st.prms) = net.layers.map (fun e => e.st.prms)
  rw [hl]
  rfl

/-- C4 witness: the three-ReLU chain, pushed, mutated by a forward pass
feeding `x = [3, -2]`, and popped. -/
theorem claim4_witness :
    ∃ net3, chainNetAfterFwd.popState = .ok net3 ∧
      net3.blobs = chainNet.blobs ∧
      net3.diffs = chainNet.diffs ∧
      net3.layers = chainNet.layers ∧
      net3.layers.map (fun e => e.st.prms) = chainNet.layers.map (fun e => e.st.prms) ∧
      net3.blob_history = chainNet.blob_history :=
  claim4_pushState_popState chainNet chainNetAfterFwd fwdKw rfl

theorem mem_keys_foldl_insf (f : NDArr → NDArr) (l : List (String × NDArr))
    (bs : List (String × NDArr)) (nm : String) :
    (nm ∈ (l.foldl (fun bs p => insertA bs p.1 (f p.2)) bs).map Prod.fst) ↔
      nm ∈ l.map Prod.fst ∨ nm ∈ bs.map Prod.fst := by
  induction l generalizing bs with
  | nil => simp [List.foldl_nil]
  | cons q t ih =>
    rw [List.foldl_cons, ih, mem_keys_insertA]
    simp only [List.map_cons, List.mem_cons]
    tauto

theorem nodup_keys_foldl_insf (f : NDArr → NDArr) (l : List (String × NDArr))
    (bs : List (String × NDArr)) (h : (bs.map Prod.fst).Nodup) :
    ((l.foldl (fun bs p => insertA bs p.1 (f p.2)) bs).map Prod.fst).Nodup := by
  induction l generalizing bs with
  | nil => exact h
  | cons q t ih =>
    rw [List.foldl_cons]
    exact ih _ (nodup_keys_insertA _ _ _ h)

theorem placeholderStep_mono (bs : List (String × NDArr)) (s nm : String)
    (h : nm ∈ bs.map Prod.fst) : nm ∈ (placeholderStep bs s).map Prod.fst := by
  unfold placeholderStep
  split
  · exact h
  · exact (mem_keys_insertA _ _ _ _).mpr (Or.inr h)

theorem placeholderStep_self (bs : List (String × NDArr)) (s : String) :
    s ∈ (placeholderStep bs s).map Prod.fst := by
  by_cases hc : containsA bs s = true
  · unfold placeholderStep
    rw [if_pos hc]
    exact (containsA_iff_mem_keys _ _).mp hc
  · unfold placeholderStep
    rw [if_neg hc]
    exact (mem_keys_insertA _ _ _ _).mpr (Or.inl rfl)

theorem placeholderStep_nodup (bs : List (String × NDArr)) (s : String)
    (h : (bs.map Prod.fst).Nodup) : ((placeholderStep bs s).map Prod.fst).Nodup := by
  unfold placeholderStep
  split
  · exact h
  · exact nodup_keys_insertA _ _ _ h

theorem placeholders_mono (names : List String) (bs : List (String × NDArr)) (nm : String)
    (h : nm ∈ bs.map Prod.fst) :
    nm ∈ (names.foldl placeholderStep bs).map Prod.fst := by
  induction names generalizing bs with
  | nil => exact h
  | cons s t ih =>
    rw [List.foldl_cons]
    exact ih _ (placeholderStep_mono _ _ _ h)

theorem placeholders_self : ∀ (names : List String) (bs : List (String × NDArr))
    (nm : String), nm ∈ names → nm ∈ (names.foldl placeholderStep bs).map Prod.fst
  | [], _, _, h => absurd h (List.not_mem_nil _)
  | s :: t, bs, nm, h => by
    rw [List.foldl_cons]
    rcases List.mem_cons.mp h with rfl | ht
    · exact placeholders_mono t _ nm (placeholderStep_self bs nm)
    · exact placeholders_self t _ nm ht

theorem placeholders_nodup (names : List String) (bs : List (String × NDArr))
    (h : (bs.map Prod.fst).Nodup) :
    ((names.foldl placeholderStep bs).map Prod.fst).Nodup := by
  induction names generalizing bs with
  | nil => exact h
  | cons s t ih =>
    rw [List.foldl_cons]
    exact ih _ (placeholderStep_nodup _ _ h)

theorem setupEntries_keys : ∀ (l : List LayerEntry) (bs : List (String × NDArr))
    (es : List LayerEntry) (bs' : List (String × NDArr)),
    setupEntries l bs = .ok (es, bs') →
    (∀ nm, nm ∈ bs.map Prod.fst → nm ∈ bs'.map Prod.fst) ∧
    (∀ e ∈ l, ∀ nm, nm ∈ e.inputs ++ e.outputs → nm ∈ bs'.map Prod.fst) ∧
    ((bs.map Prod.fst).Nodup → (bs'.map Prod.fst).Nodup)
  | [], bs, es, bs', h => by
    unfold setupEntries at h
    have h' : Except.ok (([] : List LayerEntry), bs) = Except.ok (es, bs') := h
    cases h'
    exact ⟨fun nm hm => hm, fun e he => absurd he (List.not_mem_nil e), fun hn => hn⟩
  | e :: t, bs, es, bs', h => by
    unfold setupEntries at h
    have h0 : (getArrs ((e.inputs ++ e.outputs).foldl placeholderStep bs) e.inputs >>=
        fun bi => getArrs ((e.inputs ++ e.outputs).foldl placeholderStep bs) e.outputs >>=
        fun bo => e.layer.setupF e.st bi bo >>= fun p =>
          match p with
          | (st1, tops) =>
            setupEntries t ((e.outputs.zip tops).foldl (fun bs p => insertA bs p.1 p.2)
                ((e.inputs ++ e.outputs).foldl placeholderStep bs)) >>= fun r =>
              match r with
              | (es2, bsF) =>
                Except.ok (({ e with st := st1 } : LayerEntry) :: es2, bsF)) =
        Except.ok (es, bs') := h
    cases h1 : getArrs ((e.inputs ++ e.outputs).foldl placeholderStep bs) e.inputs with
    | error er => rw [h1, exc_bind_error] at h0; cases h0
    | ok bi =>
    rw [h1, exc_bind_ok] at h0
    cases h2 : getArrs ((e.inputs ++ e.outputs).foldl placeholderStep bs) e.outputs with
    | error er => rw [h2, exc_bind_error] at h0; cases h0
    | ok bo =>
    rw [h2, exc_bind_ok] at h0
    cases h3 : e.layer.setupF e.st bi bo with
    | error er => rw [h3, exc_bind_error] at h0; cases h0
    | ok p =>
    rw [h3, exc_bind_ok] at h0
    obtain ⟨st1, tops⟩ := p
    have h0b : (setupEntries t ((e.outputs.zip tops).foldl (fun bs p => insertA bs p.1 p.2)
        ((e.inputs ++ e.outputs).foldl placeholderStep bs)) >>= fun r =>
        match r with
        | (es2, bsF) => Except.ok (({ e with st := st1 } : LayerEntry) :: es2, bsF)) =
        Except.ok (es, bs') := h0
    cases h4 : setupEntries t ((e.outputs.zip tops).foldl (fun bs p => insertA bs p.1 p.2)
        ((e.inputs ++ e.outputs).foldl placeholderStep bs)) with
    | error er => rw [h4, exc_bind_error] at h0b; cases h0b
    | ok r =>
    rw [h4, exc_bind_ok] at h0b
    obtain ⟨es2, bsF⟩ := r
    have h' : Except.ok (({ e with st := st1 } : LayerEntry) :: es2, bsF) =
        Except.ok (es, bs') := h0b
    cases h'
    obtain ⟨ihmono, ihnames, ihnodup⟩ := setupEntries_keys t _ _ _ h4
    refine ⟨?_, ?_, ?_⟩
    · intro nm hm
      apply ihmono
      exact (mem_keys_foldl_insf (fun a => a) (e.outputs.zip tops) _ nm).mpr
        (Or.inr (placeholders_mono _ _ _ hm))
    · intro e' he' nm hnm
      rcases List.mem_cons.mp he' with rfl | ht'
      · apply ihmono
        exact (mem_keys_foldl_insf (fun a => a) (e'.outputs.zip tops) _ nm).mpr
          (Or.inr (placeholders_self _ _ nm hnm))
      · exact ihnames e' ht' nm hnm
    · intro hn
      apply ihnodup
      exact nodup_keys_foldl_insf (fun a => a) (e.outputs.zip tops) _
        (placeholders_nodup _ _ hn)

theorem lookupA_foldl_frame : ∀ (bs ds : List (String × NDArr)) (nm : String),
    nm ∉ bs.map Prod.fst →
    lookupA (bs.foldl (fun ds p => insertA ds p.1 (zeroTimes p.2)) ds) nm = lookupA ds nm
  | [], ds, nm, _ => rfl
  | (k, c) :: t, ds, nm, h => by
    rw [List.foldl_cons]
    have hk : nm ≠ k := fun hh => h (by simp [hh])
    have ht : nm ∉ t.map Prod.fst := fun hm => h (by simp [hm])
    rw [lookupA_foldl_frame t _ nm ht]
    exact lookupA_insertA_ne _ _ _ _ hk

theorem lookupA_foldl_zero_mem : ∀ (bs ds : List (String × NDArr)) (nm : String)
    (b : NDArr), (bs.map Prod.fst).Nodup → lookupA bs nm = some b →
    lookupA (bs.foldl (fun ds p => insertA ds p.1 (zeroTimes p.2)) ds) nm =
      some (zeroTimes b)
  | [], ds, nm, b, _, hlk => by cases hlk
  | (k, c) :: t, ds, nm, b, hnd, hlk => by
    rw [List.map_cons, List.nodup_cons] at hnd
    obtain ⟨hknot, hndt⟩ := hnd
    rw [List.foldl_cons]
    by_cases hk : k = nm
    · subst hk
      have hb : c = b := by
        have hlk' : (if k = k then some c else lookupA t k) = some b := hlk
        rw [if_pos rfl] at hlk'
        exact Option.some.inj hlk'
      subst hb
      rw [lookupA_foldl_frame t _ k hknot]
      exact lookupA_insertA_self _ _ _
    · have hlk' : lookupA t nm = some b := by
        have hx : (if k = nm then some c else lookupA t nm) = some b := hlk
        rw [if_neg hk] at hx
        exact hx
      exact lookupA_foldl_zero_mem t _ nm b hndt hlk'

/-- C3: after `setup` completes on a freshly built Network, every name
appearing in any entry's input or output list, and every caller-supplied
initial-blob name, has exactly one Blob entry and exactly one Diff entry,
and each Diff is a zero-filled array whose shape equals its Blob's shape
(the diffs are created as `0*self._blobs[n]` after every layer's `setup`
has run). -/
theorem claim3_setup_blob_diff_invariant (entries : List LayerEntry)
    (kw : List (String × NDArr)) (net' : Network)
    (h : (Network.new entries).setup kw = .ok net') (nm : String)
    (hmem : nm ∈ kw.map Prod.fst ∨ ∃ e ∈ entries, nm ∈ e.inputs ++ e.outputs) :
    (net'.blobs.map Prod.fst).count nm = 1 ∧
    (net'.diffs.map Prod.fst).count nm = 1 ∧
    ∃ b d, lookupA net'.blobs nm = some b ∧ lookupA net'.diffs nm = some d ∧
      d.shape = b.shape ∧ ∀ z ∈ d.data, z = 0 := by
  unfold Network.setup at h
  have hred : (setupEntries entries
      (kw.foldl (fun bs p => insertA bs p.1 (zeroTimes p.2)) []) >>=
      fun r => match r with
        | (es, blobs1) => Except.ok (Network.mk es blobs1
            (blobs1.foldl (fun ds p => insertA ds p.1 (zeroTimes p.2)) []) [])) =
      Except.ok net' := h
  cases h1 : setupEntries entries
      (kw.foldl (fun bs p => insertA bs p.1 (zeroTimes p.2)) []) with
  | error er => rw [h1, exc_bind_error] at hred; cases hred
  | ok r =>
  rw [h1, exc_bind_ok] at hred
  obtain ⟨es, blobs1⟩ := r
  have h' : Except.ok (Network.mk es blobs1
      (blobs1.foldl (fun ds p => insertA ds p.1 (zeroTimes p.2)) []) []) =
      Except.ok net' := hred
  cases h'
  obtain ⟨smono, snames, snodup⟩ := setupEntries_keys entries _ es blobs1 h1
  have hb0nodup : ((kw.foldl (fun bs p => insertA bs p.1 (zeroTimes p.2))
      ([] : List (String × NDArr))).map Prod.fst).Nodup :=
    nodup_keys_foldl_insf zeroTimes kw [] (by simp)
  have hb1nodup : (blobs1.map Prod.fst).Nodup := snodup hb0nodup
  have hmem1 : nm ∈ blobs1.map Prod.fst := by
    rcases hmem with hkw | ⟨e, he, hn⟩
    · exact smono nm ((mem_keys_foldl_insf zeroTimes kw [] nm).mpr (Or.inl hkw))
    · exact snames e he nm hn
  obtain ⟨b, hb⟩ : ∃ b, lookupA blobs1 nm = some b := by
    have hsome := (mem_keys_iff_lookupA blobs1 nm).mp hmem1
    cases hx : lookupA blobs1 nm with
    | none => rw [hx] at hsome; cases hsome
    | some b => exact ⟨b, rfl⟩
  have hdmem : nm ∈ ((blobs1.foldl (fun ds p => insertA ds p.1 (zeroTimes p.2))
      ([] : List (String × NDArr))).map Prod.fst) :=
    (mem_keys_foldl_insf zeroTimes blobs1 [] nm).mpr (Or.inl hmem1)
  have hdnodup : (((blobs1.foldl (fun ds p => insertA ds p.1 (zeroTimes p.2))
      ([] : List (String × NDArr)))).map Prod.fst).Nodup :=
    nodup_keys_foldl_insf zeroTimes blobs1 [] (by simp)
  have hdlook := lookupA_foldl_zero_mem blobs1 [] nm b hb1nodup hb
  refine ⟨List.count_eq_one_of_mem hb1nodup hmem1,
    List.count_eq_one_of_mem hdnodup hdmem,
    b, zeroTimes b, hb, hdlook, rfl, ?_⟩
  intro z hz
  simp only [zeroTimes, List.mem_map] at hz
  obtain ⟨w, _, hw⟩ := hz
  rw [← hw, zero_mul]

/-- C3 witness: setting up the fresh three-ReLU chain with the initial blob
`x = [1, 2]` yields `chainNet`; the output name `y` (appearing only in
entry `C`'s output list) has exactly one zero Blob and one zero Diff of
matching shape. -/
theorem claim3_witness :
    (chainNet.blobs.map Prod.fst).count "y" = 1 ∧
    (chainNet.diffs.map Prod.fst).count "y" = 1 ∧
    ∃ b d, lookupA chainNet.blobs "y" = some b ∧ lookupA chainNet.diffs "y" = some d ∧
      d.shape = b.shape ∧ ∀ z ∈ d.data, z = 0 :=
  claim3_setup_blob_diff_invariant [entryA, entryB, entryC] [("x", arr2 1 2)] chainNet
    rfl "y" (Or.inr ⟨entryC, List.mem_cons_of_mem _ (List.mem_cons_of_mem _
      (List.mem_cons_self _ _)), by decide⟩)

theorem lookupA_of_mem_nodup {α : Type} : ∀ (ps : List (String × α)),
    (ps.map Prod.fst).Nodup → ∀ k v, (k, v) ∈ ps → lookupA ps k = some v
  | [], _, k, v, h => absurd h (List.not_mem_nil _)
  | (k0, v0) :: t, hnd, k, v, h => by
    rw [List.map_cons, List.nodup_cons] at hnd
    obtain ⟨hk0, hndt⟩ := hnd
    rcases List.mem_cons.mp h with heq | hmt
    · cases heq
      show (if k0 = k0 then some v0 else lookupA t k0) = some v0
      rw [if_pos rfl]
    · have hk : k0 ≠ k := by
        intro hh
        apply hk0
        have hmm : (k, v).1 ∈ List.map Prod.fst t := List.mem_map_of_mem Prod.fst hmt
        rw [show (k, v).1 = k from rfl] at hmm
        rw [hh]
        exact hmm
      show (if k0 = k then some v0 else lookupA t k) = some v
      rw [if_neg hk]
      exact lookupA_of_mem_nodup t hndt k v hmt

theorem setSlices_spec : ∀ (L : List String) (v : List Int) (ps : List (String × NDArr)),
    (∀ n ∈ L, n ∈ ps.map Prod.fst) → L.Nodup →
    v.length = (L.map (fun n => ((lookupA ps n).getD npEmpty0).data.length)).sum →
    ∃ ps', setSlices ps L v = .ok ps' ∧
      ps'.map Prod.fst = ps.map Prod.fst ∧
      (∀ m, m ∉ L → lookupA ps' m = lookupA ps m) ∧
      L.flatMap (fun n => ((lookupA ps' n).getD npEmpty0).data) = v
  | [], v, ps, _, _, hlen => by
    refine ⟨ps, rfl, rfl, fun m _ => rfl, ?_⟩
    have hv : v = [] := List.length_eq_zero.mp (by simpa using hlen)
    simp [hv]
  | n :: rest, v, ps, hsub, hnd, hlen => by
    have hmemn : n ∈ ps.map Prod.fst := hsub n (List.mem_cons_self _ _)
    rw [List.map_cons, List.sum_cons] at hlen
    rw [List.nodup_cons] at hnd
    obtain ⟨hn_not, hnd_rest⟩ := hnd
    have hchunk : (v.take ((lookupA ps n).getD npEmpty0).data.length).length =
        ((lookupA ps n).getD npEmpty0).data.length := by
      rw [List.length_take, hlen]
      exact Nat.min_eq_left (Nat.le_add_right _ _)
    have hkeys1 : (insertA ps n ⟨((lookupA ps n).getD npEmpty0).shape,
        v.take ((lookupA ps n).getD npEmpty0).data.length⟩).map Prod.fst =
        ps.map Prod.fst := keys_insertA_of_mem ps n _ hmemn
    have hne_of_rest : ∀ m ∈ rest, m ≠ n := fun m hm hh => hn_not (hh ▸ hm)
    have hlk1 : ∀ m ∈ rest, lookupA (insertA ps n ⟨((lookupA ps n).getD npEmpty0).shape,
        v.take ((lookupA ps n).getD npEmpty0).data.length⟩) m = lookupA ps m :=
      fun m hm => lookupA_insertA_ne _ _ _ _ (hne_of_rest m hm)
    have hsub1 : ∀ m ∈ rest, m ∈ (insertA ps n ⟨((lookupA ps n).getD npEmpty0).shape,
        v.take ((lookupA ps n).getD npEmpty0).data.length⟩).map Prod.fst := by
      intro m hm
      rw [hkeys1]
      exact hsub m (List.mem_cons_of_mem _ hm)
    have hlen1 : (v.drop ((lookupA ps n).getD npEmpty0).data.length).length =
        (rest.map (fun m => ((lookupA (insertA ps n
          ⟨((lookupA ps n).getD npEmpty0).shape,
            v.take ((lookupA ps n).getD npEmpty0).data.length⟩) m).getD
              npEmpty0).data.length)).sum := by
      rw [List.length_drop, hlen, Nat.add_sub_cancel_left]
      congr 1
      exact (List.map_congr_left (fun m hm => by rw [hlk1 m hm])).symm
    obtain ⟨ps', hset, hkeys, hframe, hjoin⟩ := setSlices_spec rest
      (v.drop ((lookupA ps n).getD npEmpty0).data.length)
      (insertA ps n ⟨((lookupA ps n).getD npEmpty0).shape,
        v.take ((lookupA ps n).getD npEmpty0).data.length⟩) hsub1 hnd_rest hlen1
    refine ⟨ps', ?_, hkeys.trans hkeys1, ?_, ?_⟩
    · show setSlices ps (n :: rest) v = .ok ps'
      simp only [setSlices]
      rw [if_pos hchunk]
      exact hset
    · intro m hm
      rw [hframe m (fun hmr => hm (List.mem_cons_of_mem _ hmr))]
      exact lookupA_insertA_ne _ _ _ _ (fun hh => hm (hh ▸ List.mem_cons_self _ _))
    · rw [List.flatMap_cons]
      have hlkn : lookupA ps' n = some ⟨((lookupA ps n).getD npEmpty0).shape,
          v.take ((lookupA ps n).getD npEmpty0).data.length⟩ := by
        rw [hframe n hn_not]
        exact lookupA_insertA_self _ _ _
      rw [hlkn, hjoin]
      show v.take ((lookupA ps n).getD npEmpty0).data.length ++
        v.drop ((lookupA ps n).getD npEmpty0).data.length = v
      exact List.take_append_drop _ v

/-- C6: for every layer and every one-dimensional vector `v` whose length
equals the total element count of the layer's parameters, assigning
`layer.flat_parameters = v` and then reading `layer.flat_parameters` yields
`v` back: the setter distributes `v` over the parameters as consecutive
slices sized to each parameter's element count in lexicographically sorted
name order, and the getter concatenates them back in the same order.  The
parameter names (and hence the slice layout) are unchanged by the setter. -/
theorem claim6_flat_parameters_roundtrip (st : LayerState) (v : List Int)
    (hnd : (st.prms.map Prod.fst).Nodup)
    (hlen : v.length = (st.prms.map (fun p => p.2.data.length)).sum) :
    ∃ st', BaseLayer.set_flat_parameters st v = .ok st' ∧
      BaseLayer.flat_parameters st' = v ∧
      st'.prms.map Prod.fst = st.prms.map Prod.fst := by
  have hperm : (sortedKeys st.prms).Perm (st.prms.map Prod.fst) := sortedKeys_perm _
  have hsub : ∀ m ∈ sortedKeys st.prms, m ∈ st.prms.map Prod.fst :=
    fun m hm => hperm.mem_iff.mp hm
  have hndL : (sortedKeys st.prms).Nodup := hperm.nodup_iff.mpr hnd
  have hlenL : v.length = ((sortedKeys st.prms).map
      (fun n => ((lookupA st.prms n).getD npEmpty0).data.length)).sum := by
    rw [hlen]
    have h1 : st.prms.map (fun p => p.2.data.length) =
        (st.prms.map Prod.fst).map
          (fun n => ((lookupA st.prms n).getD npEmpty0).data.length) := by
      rw [List.map_map]
      refine List.map_congr_left ?_
      intro p hp
      show p.2.data.length = ((lookupA st.prms p.1).getD npEmpty0).data.length
      rw [lookupA_of_mem_nodup st.prms hnd p.1 p.2 hp]
      rfl
    rw [h1]
    exact ((hperm.map _).sum_eq).symm
  obtain ⟨ps', hset, hkeys, hframe, hjoin⟩ :=
    setSlices_spec (sortedKeys st.prms) v st.prms hsub hndL hlenL
  refine ⟨{ st with prms := ps' }, ?_, ?_, hkeys⟩
  · unfold BaseLayer.set_flat_parameters
    rw [hset]
    rfl
  · show (if ps'.isEmpty then [] else (sortedKeys ps').flatMap
      (fun n => ((lookupA ps' n).getD npEmpty0).data)) = v
    by_cases hemp : ps'.isEmpty = true
    · rw [if_pos hemp]
      have hps' : ps' = [] := List.isEmpty_iff.mp hemp
      have hkeys0 : st.prms.map Prod.fst = [] := by
        rw [← hkeys, hps']
        rfl
      have hsk0 : sortedKeys st.prms = [] := by
        unfold sortedKeys
        rw [hkeys0]
        rfl
      rw [hsk0] at hjoin
      exact hjoin
    · rw [if_neg hemp]
      have hsk : sortedKeys ps' = sortedKeys st.prms := by
        unfold sortedKeys
        rw [hkeys]
      rw [hsk]
      exact hjoin

/-- C6 witness: a layer owning a `2 × 2` parameter `w` and a two-element
parameter `b`, with `v = [1, 2, 3, 4, 5, 6]` (so `b` takes the slice
`[1, 2]` and `w` the slice `[3, 4, 5, 6]` in sorted name order). -/
theorem claim6_witness :
    ∃ st', BaseLayer.set_flat_parameters twoPrmSt [1, 2, 3, 4, 5, 6] = .ok st' ∧
      BaseLayer.flat_parameters st' = [1, 2, 3, 4, 5, 6] ∧
      st'.prms.map Prod.fst = twoPrmSt.prms.map Prod.fst :=
  claim6_flat_parameters_roundtrip twoPrmSt [1, 2, 3, 4, 5, 6] (by decide) (by decide)
